import Mathlib

/-!
# Verification of the `vs-source` indexing/caching layer

Shallow embedding of `src/vssource/indexers/base.py` (class `Indexer` /
`ExternalIndexer`), the orchestration core of the repository: content-addressed
index naming, folder grouping, reuse/repair/rebuild decisions, and external
indexer invocation.

Modelling conventions:
* A filesystem path (`SPath` in the source) is a list of components
  (`Path := List String`); `p.get_folder()` is `List.dropLast`, `p.name` the
  last component.  `pathlib` orders paths by their string form; within a single
  folder (the only place the source sorts) this coincides with componentwise
  lexicographic order, which is how `Path` is ordered here.
* The filesystem is a partial map from paths to file sizes (`FS`); directory
  creation (`mkdirp`) does not affect file sizes and is a no-op in the model.
* `hashlib.md5(...).hexdigest()` is implemented concretely (RFC 1321) over byte
  lists, and `str.encode()` as UTF-8 encoding.
* The external collaborators (the indexer binary that `subprocess` runs, and
  the abstract methods `get_cmd` / `update_video_filenames` implemented by the
  per-tool subclasses, which are not part of this file set) are an explicit
  environment `Env`: the process exit status and its filesystem effect, the
  filename-rewrite effect, and the iteration order that Python's `list(set(…))`
  produces (CPython only guarantees it enumerates the distinct elements, in a
  hash-dependent order, so it is a parameter constrained to be a permutation of
  the distinct elements).
* Calls to the external collaborators are recorded in a `Trace`, so that "the
  external indexer process was invoked" is an observable of the model.
-/

deriving instance DecidableEq for Except

namespace VSSource

/-- A filesystem path, as its list of components (`SPath` in the source). -/
abbrev Path : Type := List String

/-- `p.get_folder()`: the path without its final component. -/
def getFolder (p : Path) : Path := p.dropLast

/-- `p.name`: the final path component (empty for the root path). -/
def pname (p : Path) : String := p.getLastD ""

/-- Index of the last `.` in a list of characters, if any. -/
def lastDotIdx (cs : List Char) : Option Nat :=
  ((List.range cs.length).filter (fun i => cs.getD i ' ' = '.')).getLast?

/-- `pathlib.PurePath.suffix` of a file name: the part from the last dot,
provided that dot is neither the first nor the last character. -/
def pySuffix (name : String) : String :=
  let cs := name.toList
  match lastDotIdx cs with
  | none => ""
  | some i => if 0 < i ∧ i < cs.length - 1 then ⟨cs.drop i⟩ else ""

/-- `pathlib.PurePath.stem`: the file name minus its `pySuffix`. -/
def pyStem (name : String) : String :=
  let cs := name.toList
  match lastDotIdx cs with
  | none => name
  | some i => if 0 < i ∧ i < cs.length - 1 then ⟨cs.take i⟩ else name

/-- `pathlib.PurePath.with_suffix` on a file name: replace the old suffix
(or append, when there is none). -/
def pyWithSuffixName (name suffix : String) : String :=
  let old := pySuffix name
  if old = "" then name ++ suffix
  else ⟨name.toList.take (name.toList.length - old.toList.length)⟩ ++ suffix

/-- `p.with_suffix(suffix)`: replace the suffix of the final component. -/
def pathWithSuffix (p : Path) (suffix : String) : Path :=
  p.dropLast ++ [pyWithSuffixName (pname p) suffix]

/-- Python's `<` on strings, on the character lists: lexicographic by code
point. -/
def charsLt : List Char → List Char → Bool
  | [], [] => false
  | [], _ :: _ => true
  | _ :: _, [] => false
  | a :: as, b :: bs =>
      if a.toNat < b.toNat then true
      else if b.toNat < a.toNat then false
      else charsLt as bs

/-- Python's `<` on strings. -/
def strLt (a b : String) : Bool := charsLt a.toList b.toList

/-- `p <= q` on paths: lexicographic over components with `strLt` on each.
`pathlib` compares paths through their string form; for paths that share
their leading components (the source only ever sorts files of one folder)
that is exactly this componentwise order. -/
def pathLe : Path → Path → Bool
  | [], _ => true
  | _ :: _, [] => false
  | a :: as, b :: bs =>
      if strLt a b then true
      else if strLt b a then false
      else pathLe as bs

/-! ## MD5 (RFC 1321), over lists of byte values -/

/-- Truncation to a 32-bit word. -/
def b32 (n : Nat) : Nat := n % 4294967296

/-- 32-bit complement (argument assumed `< 2 ^ 32`). -/
def not32 (x : Nat) : Nat := x ^^^ 4294967295

/-- 32-bit left rotation (argument assumed `< 2 ^ 32`). -/
def rotl (x s : Nat) : Nat := b32 ((x <<< s) ||| (x >>> (32 - s)))

/-- The md5 sine-derived constant table `K`. -/
def md5K : List Nat :=
  [0xd76aa478, 0xe8c7b756, 0x242070db, 0xc1bdceee,
   0xf57c0faf, 0x4787c62a, 0xa8304613, 0xfd469501,
   0x698098d8, 0x8b44f7af, 0xffff5bb1, 0x895cd7be,
   0x6b901122, 0xfd987193, 0xa679438e, 0x49b40821,
   0xf61e2562, 0xc040b340, 0x265e5a51, 0xe9b6c7aa,
   0xd62f105d, 0x02441453, 0xd8a1e681, 0xe7d3fbc8,
   0x21e1cde6, 0xc33707d6, 0xf4d50d87, 0x455a14ed,
   0xa9e3e905, 0xfcefa3f8, 0x676f02d9, 0x8d2a4c8a,
   0xfffa3942, 0x8771f681, 0x6d9d6122, 0xfde5380c,
   0xa4beea44, 0x4bdecfa9, 0xf6bb4b60, 0xbebfbc70,
   0x289b7ec6, 0xeaa127fa, 0xd4ef3085, 0x04881d05,
   0xd9d4d039, 0xe6db99e5, 0x1fa27cf8, 0xc4ac5665,
   0xf4292244, 0x432aff97, 0xab9423a7, 0xfc93a039,
   0x655b59c3, 0x8f0ccc92, 0xffeff47d, 0x85845dd1,
   0x6fa87e4f, 0xfe2ce6e0, 0xa3014314, 0x4e0811a1,
   0xf7537e82, 0xbd3af235, 0x2ad7d2bb, 0xeb86d391]

/-- The md5 per-step rotation amounts. -/
def md5S : List Nat :=
  [7, 12, 17, 22, 7, 12, 17, 22, 7, 12, 17, 22, 7, 12, 17, 22,
   5, 9, 14, 20, 5, 9, 14, 20, 5, 9, 14, 20, 5, 9, 14, 20,
   4, 11, 16, 23, 4, 11, 16, 23, 4, 11, 16, 23, 4, 11, 16, 23,
   6, 10, 15, 21, 6, 10, 15, 21, 6, 10, 15, 21, 6, 10, 15, 21]

/-- md5 round function F. -/
def md5F (b c d : Nat) : Nat := (b &&& c) ||| (not32 b &&& d)

/-- md5 round function G. -/
def md5G (b c d : Nat) : Nat := (d &&& b) ||| (not32 d &&& c)

/-- md5 round function H. -/
def md5H (b c d : Nat) : Nat := b ^^^ c ^^^ d

/-- md5 round function I. -/
def md5I (b c d : Nat) : Nat := c ^^^ (b ||| not32 d)

/-- One md5 step; `M j` is the `j`-th message word of the current block. -/
def md5Step (M : Nat → Nat) (st : Nat × Nat × Nat × Nat) (i : Nat) :
    Nat × Nat × Nat × Nat :=
  let a := st.1; let b := st.2.1; let c := st.2.2.1; let d := st.2.2.2
  let fg : Nat × Nat :=
    if i < 16 then (md5F b c d, i)
    else if i < 32 then (md5G b c d, (5 * i + 1) % 16)
    else if i < 48 then (md5H b c d, (3 * i + 5) % 16)
    else (md5I b c d, (7 * i) % 16)
  let tmp := b32 (a + fg.1 + md5K.getD i 0 + M fg.2)
  (d, b32 (b + rotl tmp (md5S.getD i 0)), b, c)

/-- The 16 little-endian 32-bit words of a 64-byte block. -/
def md5Words (chunk : List Nat) (j : Nat) : Nat :=
  chunk.getD (4 * j) 0 + 256 * chunk.getD (4 * j + 1) 0 +
    65536 * chunk.getD (4 * j + 2) 0 + 16777216 * chunk.getD (4 * j + 3) 0

/-- md5 compression of one 64-byte block into the chaining state. -/
def md5Block (st : Nat × Nat × Nat × Nat) (chunk : List Nat) :
    Nat × Nat × Nat × Nat :=
  let r := (List.range 64).foldl (md5Step (md5Words chunk)) st
  (b32 (st.1 + r.1), b32 (st.2.1 + r.2.1), b32 (st.2.2.1 + r.2.2.1),
    b32 (st.2.2.2 + r.2.2.2))

/-- md5 padding: `0x80`, zeros to 56 mod 64, then the 64-bit little-endian
bit length. -/
def md5Pad (msg : List Nat) : List Nat :=
  let bitLen := 8 * msg.length
  let padLen := (64 + 56 - (msg.length + 1) % 64) % 64
  msg ++ [128] ++ List.replicate padLen 0 ++
    (List.range 8).map (fun i => bitLen / 256 ^ i % 256)

/-- md5 core: fold the compression over all 64-byte blocks of the padded
message, from the standard initial state. -/
def md5Core (msg : List Nat) : Nat × Nat × Nat × Nat :=
  let p := md5Pad msg
  (List.range (p.length / 64)).foldl
    (fun st i => md5Block st ((p.drop (64 * i)).take 64))
    (0x67452301, 0xefcdab89, 0x98badcfe, 0x10325476)

/-- Lower-case hexadecimal digit. -/
def hexChar (n : Nat) : Char :=
  if n < 10 then Char.ofNat (48 + n) else Char.ofNat (87 + n)

/-- `hashlib.md5(bytes).hexdigest()`: 32 lower-case hex characters of the
digest, each state word serialized little-endian. -/
def md5hex (msg : List Nat) : String :=
  let r := md5Core msg
  let bytes := [r.1, r.2.1, r.2.2.1, r.2.2.2].flatMap
    (fun w => (List.range 4).map (fun i => w / 256 ^ i % 256))
  ⟨bytes.flatMap (fun b => [hexChar (b / 16), hexChar (b % 16)])⟩

/-- UTF-8 encoding of one code point (`str.encode()` acts per character). -/
def charUtf8 (n : Nat) : List Nat :=
  if n < 128 then [n]
  else if n < 2048 then [192 + n / 64, 128 + n % 64]
  else if n < 65536 then
    [224 + n / 4096, 128 + n / 64 % 64, 128 + n % 64]
  else
    [240 + n / 262144, 128 + n / 4096 % 64, 128 + n / 64 % 64, 128 + n % 64]

/-- `s.encode()`: the UTF-8 bytes of a string. -/
def utf8Bytes (s : String) : List Nat := s.toList.flatMap (fun c => charUtf8 c.toNat)

/-! ## Filesystem model -/

/-- The filesystem, as a partial map from paths to file sizes:
`sz p = some n` means a file of `n` bytes exists at `p`. -/
structure FS where
  sz : Path → Option Nat

/-- Create/overwrite the file at `p` with size `n`. -/
def FS.set (fs : FS) (p : Path) (n : Nat) : FS :=
  ⟨fun q => if q = p then some n else fs.sz q⟩

/-- `p.unlink()`: remove the file at `p`. -/
def FS.erase (fs : FS) (p : Path) : FS :=
  ⟨fun q => if q = p then none else fs.sz q⟩

/-! ## Errors and external process model -/

/-- The failure taxonomy of the indexing layer (the source raises
`FileNotFoundError`, `IndexError` and `CustomRuntimeError` with distinct
messages; the names below follow the distinct failure modes). -/
inductive IdxError : Type
  /-- `FileNotFoundError`: a statted source file or the binary is missing. -/
  | notFound : IdxError
  /-- Python `IndexError`: `files[0]` on an empty file list. -/
  | indexError : IdxError
  /-- `CustomRuntimeError` from `_run_index`: the external tool exited
  non-zero; carries the formatted message. -/
  | indexerExecution : String → IdxError
  /-- `CustomRuntimeError` from `file_corrupted` without `force`. -/
  | corruptedIndex : IdxError
  /-- `CustomRuntimeError` from `file_corrupted` when deletion failed. -/
  | deletionFailed : IdxError
deriving DecidableEq

/-- What the launched external process does: its exit status, and the text it
writes to its standard streams at the OS level. -/
structure Proc where
  status : Nat
  osStdout : String
  osStderr : String
deriving DecidableEq

/-- The `stdout` attribute of the `Popen` object in `_run_index`.  The source
calls `subprocess.Popen(...)` without `stdout=subprocess.PIPE`, so the child's
stdout is not captured and the attribute is always `None`, whatever the
process wrote. -/
def popenStdoutAttr (_p : Proc) : Option String := none

/-- The `stderr` attribute of the `Popen` object in `_run_index`; `None` for
the same reason as `popenStdoutAttr` (no `stderr=subprocess.PIPE`). -/
def popenStderrAttr (_p : Proc) : Option String := none

/-- The `if proc.stderr: stderr = proc.stderr.read().strip(); if stderr:
stderr = f'\n\t{stderr}'` block of `_run_index`, for either stream. -/
def fmtStream (attr : Option String) : String :=
  match attr with
  | none => ""
  | some s => let t := s.trim; if t = "" then "" else "\n\t" ++ t

/-- The message of the `CustomRuntimeError` raised by `_run_index` on a
non-zero exit status. -/
def run_index_error_msg (bin_path : String) (p : Proc) : String :=
  "There was an error while running the " ++ bin_path ++ " command!: "
    ++ fmtStream (popenStderrAttr p) ++ fmtStream (popenStdoutAttr p)

/-- The outcome of `_run_index`'s status check alone: `some msg` when it
raises (non-zero exit status), `none` when it returns normally. -/
def run_index_outcome (bin_path : String) (p : Proc) : Option String :=
  if p.status ≠ 0 then some (run_index_error_msg bin_path p) else none

/-! ## Environment: the external collaborators -/

/-- Observable calls made to the external collaborators. -/
inductive Event : Type
  /-- `_run_index(files, output, cmd_args)` launched the external indexer. -/
  | run : List Path → Path → List String → Event
  /-- `update_video_filenames(output, files)` was invoked. -/
  | update : Path → List Path → Event
deriving DecidableEq

/-- The trace of collaborator calls, in order. -/
abbrev Trace : Type := List Event

/-- The external collaborators of `ExternalIndexer`:
* `bin_path`/`ext`: the instance attributes of the concrete indexer;
* `tempDir`: `tempfile.gettempdir()`;
* `setOrder`: the iteration order of Python's `list(set(xs))` — CPython
  enumerates the distinct elements of `xs` in a hash-dependent, otherwise
  unspecified order (theorems constrain it by `SetOrderValid`);
* `proc`: the external indexer process (exit status and stream output) as a
  function of the `_run_index` arguments and the current filesystem — the
  command actually launched, `get_cmd(files, output) + cmd_args +
  _default_args`, is a tool-specific function of exactly these arguments;
* `runEffect`: the change that process makes to the filesystem;
* `updateEffect`: the in-place change `update_video_filenames` makes. -/
structure Env where
  bin_path : String
  ext : String
  tempDir : Path
  setOrder : List Path → List Path
  proc : List Path → Path → List String → FS → Proc
  runEffect : List Path → Path → List String → FS → FS
  updateEffect : Path → List Path → FS → FS

/-! ## The functions of `Indexer` / `ExternalIndexer` -/

/-- `Indexer.index_folder_name`, the class attribute `'.vssource'`. -/
def index_folder_name : String := ".vssource"

/-- `Indexer.get_joined_names`: `'_'.join([file.name for file in files])`. -/
def get_joined_names (files : List Path) : String :=
  String.intercalate "_" (files.map pname)

/-- `sum(file.stat().st_size for file in files)`; `none` when some stat
raises `FileNotFoundError`. -/
def statSum (fs : FS) (files : List Path) : Option Nat :=
  files.foldr
    (fun f acc =>
      match fs.sz f, acc with
      | some s, some t => some (s + t)
      | _, _ => none)
    (some 0)

/-- `Indexer.get_videos_hash`: md5 of the 32-byte little-endian total size
followed by the encoded joined names. -/
def get_videos_hash (fs : FS) (files : List Path) : Except IdxError String :=
  match statSum fs files with
  | none => .error .notFound
  | some lenght =>
      .ok (md5hex ((List.range 32).map (fun i => lenght / 256 ^ i % 256)
        ++ utf8Bytes (get_joined_names files)))

/-- The `output_folder` argument of `index` / `get_out_folder`:
`SPathLike | Literal[False] | None`.  (A path object is always truthy in
Python, so `.given p` reaches the final `return SPath(output_folder)`.) -/
inductive OutFolderArg : Type
  | unset : OutFolderArg
  | disabled : OutFolderArg
  | given : Path → OutFolderArg
deriving DecidableEq

/-- `ExternalIndexer.get_out_folder`. -/
def get_out_folder (env : Env) (output_folder : OutFolderArg)
    (file : Option Path) : Path :=
  match output_folder with
  | .unset =>
      match file with
      | some f => getFolder f
      | none => env.tempDir
  | .disabled => env.tempDir
  | .given p => p

/-- `ExternalIndexer.get_idx_file_path`: `path.with_suffix(f'.{self.ext}')`. -/
def get_idx_file_path (env : Env) (p : Path) : Path :=
  pathWithSuffix p ("." ++ env.ext)

/-- `ExternalIndexer.get_video_idx_path`. -/
def get_video_idx_path (env : Env) (folder : Path) (file_hash : String)
    (video_name : String) : Path :=
  let vid_name := pyStem video_name
  let filename := file_hash ++ "_" ++ vid_name
  get_idx_file_path env (folder ++ [index_folder_name, filename])

/-- `ExternalIndexer._run_index` as used from `index`: `output.mkdirp()`
(directory creation — no file-size change), launch the assembled command with
the process's working directory at `output.get_folder()`, wait, and raise on a
non-zero status.  The launch is recorded as a `.run` event. -/
def run_index (env : Env) (files : List Path) (output : Path)
    (cmd_args : List String) (fs : FS) (tr : Trace) :
    Except IdxError (FS × Trace) :=
  let p := env.proc files output cmd_args fs
  let fs' := env.runEffect files output cmd_args fs
  if p.status ≠ 0 then
    .error (.indexerExecution (run_index_error_msg env.bin_path p))
  else
    .ok (fs', tr ++ [.run files output cmd_args])

/-- The inner closure `_index(files, output)` of `ExternalIndexer.index`:
if the output exists and is empty or `force` is set, unlink it and rebuild;
if it exists otherwise, repair via `update_video_filenames`; if it does not
exist, build it. -/
def _index (env : Env) (force : Bool) (cmd_args : List String)
    (files : List Path) (output : Path) (fs : FS) (tr : Trace) :
    Except IdxError (FS × Trace) :=
  match fs.sz output with
  | some size =>
      if size = 0 ∨ force = true then
        run_index env files output cmd_args (fs.erase output) tr
      else
        .ok (env.updateEffect output files fs, tr ++ [.update output files])
  | none => run_index env files output cmd_args fs tr

/-- `list(sorted(set(files)))` of `ExternalIndexer.index`: deduplicate and
sort into canonical order (ascending `pathLe`). -/
def sorted_set (files : List Path) : List Path :=
  List.insertionSort (fun p q => pathLe p q = true) files.dedup

/-- One iteration of the `for file, output in zip(files, outputs)` loop of
the `split_files` branch of `index`: run `_index([file], output)` on the
threaded state, short-circuiting on an earlier error. -/
def split_step (env : Env) (force : Bool) (cmd_args : List String)
    (acc : Except IdxError (FS × Trace)) (fo : Path × Path) :
    Except IdxError (FS × Trace) :=
  match acc with
  | .error e => .error e
  | .ok (fs', tr) => _index env force cmd_args [fo.1] fo.2 fs' tr

/-- The body of `ExternalIndexer.index` after the multi-folder guard (the
code from `dest_folder = ...` to the end), for a batch whose files share one
folder. -/
def index_single (env : Env) (fs : FS) (files0 : List Path)
    (force split_files : Bool) (output_folder : OutFolderArg)
    (cmd_args : List String) : Except IdxError (List Path × FS × Trace) :=
  match files0.head? with
  | none => .error .indexError
  | some f0 =>
      let dest_folder := get_out_folder env output_folder (some f0)
      let files := sorted_set files0
      match get_videos_hash fs files with
      | .error e => .error e
      | .ok hash_str =>
          if split_files = false then
            let output := get_video_idx_path env dest_folder hash_str
              (if files.length > 1 then "JOINED" else "SINGLE")
            match _index env force cmd_args files output fs [] with
            | .error e => .error e
            | .ok (fs', tr) => .ok ([output], fs', tr)
          else
            let outputs := files.map
              (fun file => get_video_idx_path env dest_folder hash_str (pname file))
            match (files.zip outputs).foldl (split_step env force cmd_args)
                (.ok (fs, [])) with
            | .error e => .error e
            | .ok (fs', tr) => .ok (outputs, fs', tr)

/-- The output path `index` computes for a joined (non-split) logical unit:
destination folder of the first input file, the set-wide hash, and the
`JOINED`/`SINGLE` tag. -/
def joined_out (env : Env) (of : OutFolderArg) (f0 : Path) (h : String)
    (files0 : List Path) : Path :=
  get_video_idx_path env (get_out_folder env of (some f0)) h
    (if (sorted_set files0).length > 1 then "JOINED" else "SINGLE")

/-- One iteration of the multi-folder flattening of `index`: process one
folder's subset (the recursive call, which always lands in the single-folder
branch — see `index`) with no extra `cmd_args`, and append its results. -/
def folder_step (env : Env) (files : List Path) (force split_files : Bool)
    (output_folder : OutFolderArg)
    (acc : Except IdxError (List Path × FS × Trace)) (folder : Path) :
    Except IdxError (List Path × FS × Trace) :=
  match acc with
  | .error e => .error e
  | .ok (ps, fs', tr) =>
      match index_single env fs'
          (files.filter (fun f => getFolder f == folder))
          force split_files output_folder [] with
      | .error e => .error e
      | .ok (ps₂, fs₂, tr₂) => .ok (ps ++ ps₂, fs₂, tr ++ tr₂)

/-- `ExternalIndexer.index`.  When the input spans more than one distinct
folder, each folder's subset is processed by a recursive call
`self.index([...], force, split_files, output_folder)` — the extra `*cmd_args`
are not forwarded — and the results are flattened in set-iteration order.
Each such subset has exactly one distinct folder, so the recursive call always
takes the single-folder branch; it is therefore written here as `index_single`
with empty extra arguments (`index_eq_single_of_same_folder` re-establishes
this equivalence for `index` itself on any single-folder batch). -/
def index (env : Env) (fs : FS) (files : List Path)
    (force split_files : Bool) (output_folder : OutFolderArg)
    (cmd_args : List String) : Except IdxError (List Path × FS × Trace) :=
  let unique_folders := env.setOrder (files.map getFolder)
  if unique_folders.length > 1 then
    unique_folders.foldl (folder_step env files force split_files output_folder)
      (.ok ([], fs, []))
  else index_single env fs files force split_files output_folder cmd_args

/-- One iteration of the multi-folder flattening, with the recursive call
written as the full `index` (exactly as in the source). -/
def folder_step_rec (env : Env) (files : List Path) (force split_files : Bool)
    (output_folder : OutFolderArg)
    (acc : Except IdxError (List Path × FS × Trace)) (folder : Path) :
    Except IdxError (List Path × FS × Trace) :=
  match acc with
  | .error e => .error e
  | .ok (ps, fs', tr) =>
      match index env fs'
          (files.filter (fun f => getFolder f == folder))
          force split_files output_folder [] with
      | .error e => .error e
      | .ok (ps₂, fs₂, tr₂) => .ok (ps ++ ps₂, fs₂, tr ++ tr₂)

/-- The multi-folder behaviour as the spec describes it: one independent
recursive `index` call per distinct folder, in set-iteration order, results
flattened. -/
def index_per_folder (env : Env) (fs : FS) (files : List Path)
    (force split_files : Bool) (output_folder : OutFolderArg) :
    Except IdxError (List Path × FS × Trace) :=
  (env.setOrder (files.map getFolder)).foldl
    (folder_step_rec env files force split_files output_folder)
    (.ok ([], fs, []))

/-- The returned path list of `index`, with the filesystem and trace
projected away. -/
def index_paths (env : Env) (fs : FS) (files : List Path)
    (force split_files : Bool) (output_folder : OutFolderArg)
    (cmd_args : List String) : Except IdxError (List Path) :=
  (index env fs files force split_files output_folder cmd_args).map
    (fun r => r.1)

/-- `ExternalIndexer.file_corrupted`; `unlink_ok` is whether the OS-level
`index_path.unlink()` succeeds (its failure is the `except OSError` branch).
Returns the filesystem afterwards and the raised error, if any. -/
def file_corrupted (force : Bool) (unlink_ok : Bool) (fs : FS)
    (index_path : Path) : FS × Option IdxError :=
  if force = true then
    if unlink_ok = true then (fs.erase index_path, none)
    else (fs, some .deletionFailed)
  else (fs, some .corruptedIndex)

/-! ## Observables of a trace -/

/-- The argument lists of the `.run` events of a trace: one entry per
external-indexer invocation, carrying the extra `cmd_args` it was given. -/
def runArgsOf (tr : Trace) : List (List String) :=
  tr.filterMap (fun e =>
    match e with
    | .run _ _ a => some a
    | .update _ _ => none)

/-- How many times the external indexer process was launched. -/
def countRuns (tr : Trace) : Nat := (runArgsOf tr).length

/-! ## Hypothesis vocabulary for the environment -/

/-- `list(set(xs))` enumerates exactly the distinct elements of `xs`:
the order CPython produces is some permutation of them. -/
def SetOrderValid (env : Env) : Prop :=
  ∀ l : List Path, (env.setOrder l).Perm l.dedup

/-- Every launch of the external indexer exits with status 0. -/
def AlwaysSucceeds (env : Env) : Prop :=
  ∀ fl o a s, (env.proc fl o a s).status = 0

/-- Neither external effect ever touches the size of a source file of the
batch under consideration. -/
def PreservesSources (env : Env) (files : List Path) : Prop :=
  (∀ fl o a s f, f ∈ files → (env.runEffect fl o a s).sz f = s.sz f) ∧
  (∀ o fl s f, f ∈ files → (env.updateEffect o fl s).sz f = s.sz f)

/-- A successful run of the external indexer leaves a non-empty index file at
its output path (stated away from the source files, whose sizes it keeps). -/
def CreatesOutput (env : Env) (files : List Path) : Prop :=
  ∀ fl o a s, o ∉ files → (env.proc fl o a s).status = 0 →
    ∃ n, (env.runEffect fl o a s).sz o = some n ∧ n ≠ 0

/-- `update_video_filenames` never empties or removes the index file it
rewrites. -/
def KeepsNonEmpty (env : Env) : Prop :=
  ∀ o fl s n, s.sz o = some n → n ≠ 0 →
    ∃ m, (env.updateEffect o fl s).sz o = some m ∧ m ≠ 0

/-! ## Concrete test fixtures -/

/-- A concrete well-behaved environment: the external indexer always exits 0
and writes a 1-byte index at its output path (leaving the given protected
paths alone), filename rewriting changes nothing, and `list(set(…))`
enumerates in first-occurrence order. -/
def mkEnv (protected_paths : List Path) : Env :=
  { bin_path := "dgindexnv"
    ext := "dgi"
    tempDir := ["tmp"]
    setOrder := fun l => l.dedup
    proc := fun _ _ _ _ => ⟨0, "", ""⟩
    runEffect := fun _ o _ s => if o ∈ protected_paths then s else s.set o 1
    updateEffect := fun _ _ s => s }

/-- Two source files in the same folder `d`. -/
def fA : Path := ["d", "a.mkv"]

/-- Second file of the same-folder pair. -/
def fB : Path := ["d", "b.mkv"]

/-- A filesystem holding `fA` (5 bytes) and `fB` (7 bytes). -/
def fsAB : FS := ⟨fun q => if q = fA then some 5 else if q = fB then some 7 else none⟩

/-- The same-folder environment fixture. -/
def envAB : Env := mkEnv [fA, fB]

/-- A source file in folder `d1`. -/
def fA1 : Path := ["d1", "a.mkv"]

/-- A source file in folder `d2`. -/
def fB2 : Path := ["d2", "b.mkv"]

/-- A filesystem holding `fA1` (5 bytes) and `fB2` (7 bytes). -/
def fs12 : FS := ⟨fun q => if q = fA1 then some 5 else if q = fB2 then some 7 else none⟩

/-- The two-folder environment fixture. -/
def env12 : Env := mkEnv [fA1, fB2]

/-- The two-folder fixture with a set-iteration order that enumerates the
distinct folders in reverse of first-occurrence order — a legal CPython set
order. -/
def env12r : Env := { mkEnv [fA1, fB2] with setOrder := fun l => l.dedup.reverse }

/-! ## Properties of the path order -/

theorem charsLt_asymm : ∀ x y : List Char, charsLt x y = true → charsLt y x = false
  | [], y => by cases y <;> simp [charsLt]
  | _ :: _, [] => by simp [charsLt]
  | a :: as, b :: bs => by
      intro h1
      simp only [charsLt] at h1 ⊢
      by_cases hab : a.toNat < b.toNat
      · rw [if_neg (Nat.lt_asymm hab), if_pos hab]
      · rw [if_neg hab] at h1
        by_cases hba : b.toNat < a.toNat
        · rw [if_pos hba] at h1; exact absurd h1 (by simp)
        · rw [if_neg hba] at h1
          rw [if_neg hba, if_neg hab]
          exact charsLt_asymm as bs h1

theorem charsLt_trans :
    ∀ x y z : List Char, charsLt x y = true → charsLt y z = true → charsLt x z = true
  | [], y, z => by
      cases y <;> cases z <;> simp [charsLt]
  | _ :: _, [], _ => by simp [charsLt]
  | _ :: _, _ :: _, [] => by intro _ h2; simp [charsLt] at h2
  | a :: as, b :: bs, c :: cs => by
      intro h1 h2
      simp only [charsLt] at h1 h2 ⊢
      by_cases hab : a.toNat < b.toNat
      · by_cases hbc : b.toNat < c.toNat
        · rw [if_pos (Nat.lt_trans hab hbc)]
        · rw [if_neg hbc] at h2
          by_cases hcb : c.toNat < b.toNat
          · rw [if_pos hcb] at h2; exact absurd h2 (by simp)
          · have hbe : b.toNat = c.toNat :=
              Nat.le_antisymm (Nat.not_lt.1 hcb) (Nat.not_lt.1 hbc)
            rw [if_pos (hbe ▸ hab)]
      · rw [if_neg hab] at h1
        by_cases hba : b.toNat < a.toNat
        · rw [if_pos hba] at h1; exact absurd h1 (by simp)
        · rw [if_neg hba] at h1
          have hae : a.toNat = b.toNat :=
            Nat.le_antisymm (Nat.not_lt.1 hba) (Nat.not_lt.1 hab)
          by_cases hbc : b.toNat < c.toNat
          · rw [if_pos (hae ▸ hbc)]
          · rw [if_neg hbc] at h2
            by_cases hcb : c.toNat < b.toNat
            · rw [if_pos hcb] at h2; exact absurd h2 (by simp)
            · rw [if_neg hcb] at h2
              rw [if_neg (hae ▸ hbc), if_neg (hae ▸ hcb)]
              exact charsLt_trans as bs cs h1 h2

theorem char_eq_of_toNat_eq {a b : Char} (h : a.toNat = b.toNat) : a = b := by
  have h' := congrArg Char.ofNat h
  rwa [Char.ofNat_toNat, Char.ofNat_toNat] at h'

theorem charsLt_eq_of_not :
    ∀ x y : List Char, charsLt x y = false → charsLt y x = false → x = y
  | [], y => by cases y <;> simp [charsLt]
  | _ :: _, [] => by simp [charsLt]
  | a :: as, b :: bs => by
      intro h1 h2
      simp only [charsLt] at h1 h2
      by_cases hab : a.toNat < b.toNat
      · rw [if_pos hab] at h1; exact absurd h1 (by simp)
      · rw [if_neg hab] at h1
        by_cases hba : b.toNat < a.toNat
        · rw [if_pos hba] at h2; exact absurd h2 (by simp)
        · rw [if_neg hba] at h1
          rw [if_neg hba, if_neg hab] at h2
          have he : a = b :=
            char_eq_of_toNat_eq (Nat.le_antisymm (Nat.not_lt.1 hba) (Nat.not_lt.1 hab))
          rw [he, charsLt_eq_of_not as bs h1 h2]

theorem strLt_asymm {a b : String} (h : strLt a b = true) : strLt b a = false :=
  charsLt_asymm _ _ h

theorem strLt_trans {a b c : String} (h1 : strLt a b = true) (h2 : strLt b c = true) :
    strLt a c = true :=
  charsLt_trans _ _ _ h1 h2

theorem str_eq_of_not_lt {a b : String} (h1 : strLt a b = false)
    (h2 : strLt b a = false) : a = b := by
  have h := charsLt_eq_of_not _ _ h1 h2
  cases a; cases b
  simpa [String.toList] using congrArg String.mk h

theorem str_not_lt_of_eq_false {a b : String} (h : ¬ strLt a b = true) :
    strLt a b = false := by
  cases hh : strLt a b
  · rfl
  · exact absurd hh h

theorem pathLe_total : ∀ x y : Path, pathLe x y = true ∨ pathLe y x = true
  | [], _ => Or.inl rfl
  | _ :: _, [] => Or.inr rfl
  | a :: as, b :: bs => by
      simp only [pathLe]
      by_cases hab : strLt a b = true
      · left; rw [if_pos hab]
      · rw [if_neg hab]
        by_cases hba : strLt b a = true
        · right; rw [if_pos hba]
        · rw [if_neg hba, if_neg hba, if_neg hab]
          exact pathLe_total as bs

theorem pathLe_antisymm : ∀ x y : Path, pathLe x y = true → pathLe y x = true → x = y
  | [], [] => fun _ _ => rfl
  | [], _ :: _ => by intro _ h2; simp [pathLe] at h2
  | _ :: _, [] => by intro h1 _; simp [pathLe] at h1
  | a :: as, b :: bs => by
      intro h1 h2
      simp only [pathLe] at h1 h2
      by_cases hab : strLt a b = true
      · rw [if_neg (by simp [strLt_asymm hab]), if_pos hab] at h2
        exact absurd h2 (by simp)
      · rw [if_neg hab] at h1
        by_cases hba : strLt b a = true
        · rw [if_pos hba] at h1; exact absurd h1 (by simp)
        · rw [if_neg hba] at h1 h2
          rw [if_neg hab] at h2
          have he : a = b :=
            str_eq_of_not_lt (str_not_lt_of_eq_false hab) (str_not_lt_of_eq_false hba)
          rw [he, pathLe_antisymm as bs h1 h2]

theorem pathLe_trans : ∀ x y z : Path, pathLe x y = true → pathLe y z = true →
    pathLe x z = true
  | [], _, _ => by intro _ _; rfl
  | _ :: _, [], _ => by intro h1 _; simp [pathLe] at h1
  | _ :: _, _ :: _, [] => by intro _ h2; simp [pathLe] at h2
  | a :: as, b :: bs, c :: cs => by
      intro h1 h2
      simp only [pathLe] at h1 h2 ⊢
      by_cases hab : strLt a b = true
      · by_cases hbc : strLt b c = true
        · rw [if_pos (strLt_trans hab hbc)]
        · rw [if_neg hbc] at h2
          by_cases hcb : strLt c b = true
          · rw [if_pos hcb] at h2; exact absurd h2 (by simp)
          · have he : b = c :=
              str_eq_of_not_lt (str_not_lt_of_eq_false hbc) (str_not_lt_of_eq_false hcb)
            rw [if_pos (he ▸ hab)]
      · rw [if_neg hab] at h1
        by_cases hba : strLt b a = true
        · rw [if_pos hba] at h1; exact absurd h1 (by simp)
        · rw [if_neg hba] at h1
          have he : a = b :=
            str_eq_of_not_lt (str_not_lt_of_eq_false hab) (str_not_lt_of_eq_false hba)
          subst he
          by_cases hac : strLt a c = true
          · rw [if_pos hac]
          · rw [if_neg hac] at h2 ⊢
            by_cases hca : strLt c a = true
            · rw [if_pos hca] at h2; exact absurd h2 (by simp)
            · rw [if_neg hca] at h2 ⊢
              exact pathLe_trans as bs cs h1 h2

/-! ## Properties of `sorted_set` -/

theorem mem_sorted_set {x : Path} {l : List Path} : x ∈ sorted_set l ↔ x ∈ l := by
  unfold sorted_set
  rw [List.mem_insertionSort, List.mem_dedup]

theorem sorted_set_eq_of_mem_iff (l₁ l₂ : List Path)
    (h : ∀ x, x ∈ l₁ ↔ x ∈ l₂) : sorted_set l₁ = sorted_set l₂ := by
  haveI : IsTrans Path (fun p q => pathLe p q = true) := ⟨pathLe_trans⟩
  haveI : IsAntisymm Path (fun p q => pathLe p q = true) := ⟨pathLe_antisymm⟩
  haveI : IsTotal Path (fun p q => pathLe p q = true) := ⟨pathLe_total⟩
  have hperm : l₁.dedup.Perm l₂.dedup :=
    (List.perm_ext_iff_of_nodup (List.nodup_dedup _) (List.nodup_dedup _)).2
      (fun a => by rw [List.mem_dedup, List.mem_dedup]; exact h a)
  exact List.eq_of_perm_of_sorted
    (((List.perm_insertionSort _ _).trans hperm).trans
      (List.perm_insertionSort _ _).symm)
    (List.sorted_insertionSort _ _) (List.sorted_insertionSort _ _)

/-! ## Properties of `statSum` and `get_videos_hash` -/

theorem statSum_cons (fs : FS) (a : Path) (t : List Path) :
    statSum fs (a :: t) =
      match fs.sz a, statSum fs t with
      | some s, some n => some (s + n)
      | _, _ => none := rfl

theorem statSum_some (fs : FS) :
    ∀ l : List Path, (∀ f ∈ l, fs.sz f ≠ none) → ∃ n, statSum fs l = some n := by
  intro l
  induction l with
  | nil => exact fun _ => ⟨0, rfl⟩
  | cons a t ih =>
      intro h
      rcases ih (fun f hf => h f (List.mem_cons_of_mem _ hf)) with ⟨n, hn⟩
      cases hsa : fs.sz a with
      | none => exact absurd hsa (h a (List.mem_cons_self a t))
      | some s => exact ⟨s + n, by rw [statSum_cons, hsa, hn]⟩

theorem statSum_congr (fs fs' : FS) :
    ∀ l : List Path, (∀ f ∈ l, fs'.sz f = fs.sz f) → statSum fs' l = statSum fs l := by
  intro l
  induction l with
  | nil => intro _; rfl
  | cons a t ih =>
      intro h
      rw [statSum_cons, statSum_cons, h a (List.mem_cons_self a t),
        ih (fun f hf => h f (List.mem_cons_of_mem _ hf))]

theorem get_videos_hash_congr (fs fs' : FS) (l : List Path)
    (h : ∀ f ∈ l, fs'.sz f = fs.sz f) :
    get_videos_hash fs' l = get_videos_hash fs l := by
  unfold get_videos_hash
  rw [statSum_congr fs fs' l h]

theorem get_videos_hash_ok (fs : FS) (l : List Path)
    (h : ∀ f ∈ l, fs.sz f ≠ none) : ∃ s, get_videos_hash fs l = .ok s := by
  rcases statSum_some fs l h with ⟨n, hn⟩
  exact ⟨_, by unfold get_videos_hash; rw [hn]⟩

/-! ## The shape of the computed index path -/

theorem get_video_idx_path_eq (env : Env) (folder : Path) (h n : String) :
    get_video_idx_path env folder h n =
      folder ++ [index_folder_name,
        pyWithSuffixName (h ++ "_" ++ pyStem n) ("." ++ env.ext)] := by
  unfold get_video_idx_path get_idx_file_path pathWithSuffix pname
  dsimp only
  rw [show folder ++ [index_folder_name, h ++ "_" ++ pyStem n] =
    (folder ++ [index_folder_name]) ++ [h ++ "_" ++ pyStem n] by simp]
  rw [List.dropLast_concat, List.getLastD_concat]
  simp

theorem index_folder_name_mem_idx_path (env : Env) (folder : Path) (h n : String) :
    index_folder_name ∈ get_video_idx_path env folder h n := by
  rw [get_video_idx_path_eq]
  simp

theorem ne_idx_path_of_no_vssource {f : Path} (hf : index_folder_name ∉ f)
    (env : Env) (folder : Path) (h n : String) :
    f ≠ get_video_idx_path env folder h n := by
  intro he
  exact hf (he ▸ index_folder_name_mem_idx_path env folder h n)

theorem ne_joined_out_of_no_vssource {f : Path} (hf : index_folder_name ∉ f)
    (env : Env) (of : OutFolderArg) (f0 : Path) (h : String) (files0 : List Path) :
    f ≠ joined_out env of f0 h files0 := by
  unfold joined_out
  exact ne_idx_path_of_no_vssource hf env _ h _

/-! ## Unfolding lemmas for the model -/

theorem fs_erase_sz (fs : FS) (p q : Path) :
    (fs.erase p).sz q = if q = p then none else fs.sz q := rfl

theorem run_index_ok (env : Env) (fl : List Path) (o : Path) (a : List String)
    (fs : FS) (tr : Trace) (h : (env.proc fl o a fs).status = 0) :
    run_index env fl o a fs tr =
      .ok (env.runEffect fl o a fs, tr ++ [.run fl o a]) := by
  unfold run_index
  rw [if_neg (by simp [h])]

theorem _index_absent (env : Env) (force : Bool) (a : List String) (fl : List Path)
    (o : Path) (fs : FS) (tr : Trace) (h : fs.sz o = none) :
    _index env force a fl o fs tr = run_index env fl o a fs tr := by
  unfold _index
  rw [h]

theorem _index_rebuild (env : Env) (force : Bool) (a : List String) (fl : List Path)
    (o : Path) (fs : FS) (tr : Trace) (sz : Nat) (h : fs.sz o = some sz)
    (hzf : sz = 0 ∨ force = true) :
    _index env force a fl o fs tr = run_index env fl o a (fs.erase o) tr := by
  unfold _index
  rw [h]
  exact if_pos hzf

theorem _index_reuse (env : Env) (a : List String) (fl : List Path)
    (o : Path) (fs : FS) (tr : Trace) (sz : Nat) (h : fs.sz o = some sz)
    (h0 : sz ≠ 0) :
    _index env false a fl o fs tr =
      .ok (env.updateEffect o fl fs, tr ++ [.update o fl]) := by
  unfold _index
  rw [h]
  exact if_neg (by simp [h0])

theorem _index_ok (env : Env) (force : Bool) (a : List String) (fl : List Path)
    (o : Path) (fs : FS) (tr : Trace) (hstatus : AlwaysSucceeds env) :
    ∃ fs' tr', _index env force a fl o fs tr = .ok (fs', tr') := by
  cases h : fs.sz o with
  | none =>
      rw [_index_absent env force a fl o fs tr h,
        run_index_ok env fl o a fs tr (hstatus fl o a fs)]
      exact ⟨_, _, rfl⟩
  | some sz =>
      by_cases hzf : sz = 0 ∨ force = true
      · rw [_index_rebuild env force a fl o fs tr sz h hzf,
          run_index_ok env fl o a (fs.erase o) tr (hstatus fl o a (fs.erase o))]
        exact ⟨_, _, rfl⟩
      · have h0 : sz ≠ 0 := fun hz => hzf (Or.inl hz)
        have hf : force = false := by
          cases force
          · rfl
          · exact absurd (Or.inr rfl) hzf
        subst hf
        rw [_index_reuse env a fl o fs tr sz h h0]
        exact ⟨_, _, rfl⟩

theorem split_fold_ok (env : Env) (force : Bool) (a : List String)
    (hstatus : AlwaysSucceeds env) :
    ∀ (l : List (Path × Path)) (fs : FS) (tr : Trace),
      ∃ fs' tr', l.foldl (split_step env force a) (.ok (fs, tr)) = .ok (fs', tr') := by
  intro l
  induction l with
  | nil => exact fun fs tr => ⟨fs, tr, rfl⟩
  | cons fo t ih =>
      intro fs tr
      rw [List.foldl_cons]
      rcases _index_ok env force a [fo.1] fo.2 fs tr hstatus with ⟨fs₁, tr₁, he⟩
      rw [show split_step env force a (.ok (fs, tr)) fo =
        _index env force a [fo.1] fo.2 fs tr from rfl, he]
      exact ih fs₁ tr₁

theorem dedup_length_le_one {α : Type} [DecidableEq α] :
    ∀ (l : List α) (d : α), (∀ x ∈ l, x = d) → l.dedup.length ≤ 1 := by
  intro l d h
  induction l with
  | nil => simp
  | cons a t ih =>
      by_cases ha : a ∈ t
      · rw [List.dedup_cons_of_mem ha]
        exact ih (fun x hx => h x (List.mem_cons_of_mem _ hx))
      · have ht : t = [] := by
          cases t with
          | nil => rfl
          | cons b u =>
              exact absurd
                ((h a (List.mem_cons_self a _)).trans
                  (h b (List.mem_cons_of_mem _ (List.mem_cons_self b u))).symm ▸
                    List.mem_cons_self b u) ha
        subst ht
        simp

theorem index_eq_single_of_same_folder (env : Env) (fs : FS) (files : List Path)
    (force split_files : Bool) (output_folder : OutFolderArg) (args : List String)
    (d : Path) (hvalid : SetOrderValid env)
    (hfold : ∀ f ∈ files, getFolder f = d) :
    index env fs files force split_files output_folder args =
      index_single env fs files force split_files output_folder args := by
  have hall : ∀ x ∈ files.map getFolder, x = d := by
    intro x hx
    rcases List.mem_map.1 hx with ⟨f, hf, rfl⟩
    exact hfold f hf
  have hlen : (env.setOrder (files.map getFolder)).length ≤ 1 := by
    rw [(hvalid (files.map getFolder)).length_eq]
    exact dedup_length_le_one _ d hall
  unfold index
  rw [if_neg (by omega)]

/-! ## Trace-shape lemmas -/

theorem runArgsOf_append (t₁ t₂ : Trace) :
    runArgsOf (t₁ ++ t₂) = runArgsOf t₁ ++ runArgsOf t₂ :=
  List.filterMap_append _ _ _

theorem runArgsOf_run (fl : List Path) (o : Path) (a : List String) :
    runArgsOf [.run fl o a] = [a] := rfl

theorem runArgsOf_update (o : Path) (fl : List Path) :
    runArgsOf [.update o fl] = [] := rfl

/-! ## Properties of the fixture environment -/

theorem mkEnv_setOrderValid (L : List Path) : SetOrderValid (mkEnv L) :=
  fun _ => List.Perm.refl _

theorem mkEnv_alwaysSucceeds (L : List Path) : AlwaysSucceeds (mkEnv L) :=
  fun _ _ _ _ => rfl

theorem mkEnv_preservesSources (L : List Path) : PreservesSources (mkEnv L) L := by
  constructor
  · intro fl o a s f hf
    show (if o ∈ L then s else s.set o 1).sz f = s.sz f
    by_cases ho : o ∈ L
    · rw [if_pos ho]
    · rw [if_neg ho]
      have hfo : f ≠ o := fun he => ho (he ▸ hf)
      show (if f = o then some 1 else s.sz f) = s.sz f
      rw [if_neg hfo]
  · intro o fl s f hf
    rfl

theorem mkEnv_createsOutput (L : List Path) : CreatesOutput (mkEnv L) L := by
  intro fl o a s ho _
  refine ⟨1, ?_, one_ne_zero⟩
  show (if o ∈ L then s else s.set o 1).sz o = some 1
  rw [if_neg ho]
  show (if o = o then some 1 else s.sz o) = some 1
  rw [if_pos rfl]

theorem mkEnv_keepsNonEmpty (L : List Path) : KeepsNonEmpty (mkEnv L) :=
  fun _ _ _ n h h0 => ⟨n, h, h0⟩

/-! ## Characterizations of `index_single` -/

theorem index_single_joined (env : Env) (fs : FS) (files0 : List Path)
    (force : Bool) (of : OutFolderArg) (args : List String) (f0 : Path) (h : String)
    (hhead : files0.head? = some f0)
    (hhash : get_videos_hash fs (sorted_set files0) = .ok h) :
    index_single env fs files0 force false of args =
      match _index env force args (sorted_set files0)
          (joined_out env of f0 h files0) fs [] with
      | .error e => .error e
      | .ok (fs', tr) => .ok ([joined_out env of f0 h files0], fs', tr) := by
  unfold index_single
  rw [hhead]
  dsimp only
  rw [hhash]
  exact rfl

theorem index_single_split (env : Env) (fs : FS) (files0 : List Path)
    (force : Bool) (of : OutFolderArg) (args : List String) (f0 : Path) (h : String)
    (hhead : files0.head? = some f0)
    (hhash : get_videos_hash fs (sorted_set files0) = .ok h) :
    index_single env fs files0 force true of args =
      match ((sorted_set files0).zip ((sorted_set files0).map
            (fun file => get_video_idx_path env (get_out_folder env of (some f0)) h
              (pname file)))).foldl
          (split_step env force args) (.ok (fs, [])) with
      | .error e => .error e
      | .ok (fs', tr) =>
          .ok ((sorted_set files0).map
            (fun file => get_video_idx_path env (get_out_folder env of (some f0)) h
              (pname file)), fs', tr) := by
  unfold index_single
  rw [hhead]
  dsimp only
  rw [hhash]
  exact rfl

theorem index_single_hash_error (env : Env) (fs : FS) (files0 : List Path)
    (force split_files : Bool) (of : OutFolderArg) (args : List String)
    (f0 : Path) (e : IdxError)
    (hhead : files0.head? = some f0)
    (hhash : get_videos_hash fs (sorted_set files0) = .error e) :
    index_single env fs files0 force split_files of args = .error e := by
  unfold index_single
  rw [hhead]
  dsimp only
  rw [hhash]

/-! ## The claims -/

/-- C3 (code-bug evidence): `_run_index` raises exactly on a non-zero exit
status — but the message never carries what the process wrote to its streams,
because `Popen` is invoked without `stdout=PIPE` / `stderr=PIPE` and so the
`proc.stderr` / `proc.stdout` attributes read by the error-formatting code
are always `None`.  Here the process exits 1 having written `"output"` to
stdout and `"boom"` to stderr, yet the raised message is the bare prefix;
with exit status 0 nothing is raised. -/
theorem C3_error_message_drops_process_output :
    run_index_outcome "dgindexnv" ⟨1, "output", "boom"⟩ =
      some "There was an error while running the dgindexnv command!: "
    ∧ run_index_outcome "dgindexnv" ⟨0, "output", "boom"⟩ = none := by
  constructor
  · rfl
  · rfl

/-- C4: on a reported corrupted index, `file_corrupted` in force mode deletes
the file and raises `deletionFailed` exactly when the OS-level deletion
fails; without force it raises `corruptedIndex` and leaves the filesystem
untouched (it never rebuilds). -/
theorem C4_file_corrupted_spec (fs : FS) (p : Path) :
    (file_corrupted true true fs p).2 = none
    ∧ (file_corrupted true true fs p).1.sz p = none
    ∧ file_corrupted true false fs p = (fs, some .deletionFailed)
    ∧ file_corrupted false true fs p = (fs, some .corruptedIndex)
    ∧ file_corrupted false false fs p = (fs, some .corruptedIndex) := by
  refine ⟨rfl, ?_, rfl, rfl, rfl⟩
  show (fs.erase p).sz p = none
  rw [fs_erase_sz, if_pos rfl]

/-- C9: the output-directory choice of `get_out_folder` is exactly three-way:
an explicitly given directory is returned as-is, `False` selects the system
temp directory, and `None` selects the parent folder of the (first) source
file. -/
theorem C9_out_folder_three_way (env : Env) (p f : Path) (fOpt : Option Path) :
    get_out_folder env (.given p) fOpt = p
    ∧ get_out_folder env .disabled fOpt = env.tempDir
    ∧ get_out_folder env .unset (some f) = getFolder f :=
  ⟨rfl, rfl, rfl⟩

/-- C6: when the target index file exists and is empty, or `force` was
passed, `_index` unlinks the file (it is gone before the rebuild) and then
invokes the external indexer on the erased filesystem. -/
theorem C6_rebuild_on_zero_or_force (env : Env) (force : Bool)
    (args : List String) (fl : List Path) (o : Path) (fs : FS) (tr : Trace)
    (sz : Nat) (hex : fs.sz o = some sz) (hzf : sz = 0 ∨ force = true) :
    _index env force args fl o fs tr = run_index env fl o args (fs.erase o) tr
    ∧ (fs.erase o).sz o = none := by
  refine ⟨_index_rebuild env force args fl o fs tr sz hex hzf, ?_⟩
  rw [fs_erase_sz, if_pos rfl]

/-- Witness for C6 with `force = true` over a valid 3-byte index file. -/
theorem C6_rebuild_on_zero_or_force_witness :
    _index (mkEnv []) true ["x"] [fA] ["d", "i.dgi"] (FS.set fsAB ["d", "i.dgi"] 3) []
        = run_index (mkEnv []) [fA] ["d", "i.dgi"] ["x"]
            ((FS.set fsAB ["d", "i.dgi"] 3).erase ["d", "i.dgi"]) []
    ∧ ((FS.set fsAB ["d", "i.dgi"] 3).erase ["d", "i.dgi"]).sz ["d", "i.dgi"] = none :=
  C6_rebuild_on_zero_or_force (mkEnv []) true ["x"] [fA] ["d", "i.dgi"]
    (FS.set fsAB ["d", "i.dgi"] 3) [] 3 (by rfl) (Or.inr rfl)

/-- C7: on REUSE (existing, non-empty, no force), `_index` always invokes the
filename-rewrite collaborator on the index with the current input paths, and
does not launch the external indexer (the trace gains no run event). -/
theorem C7_reuse_always_repairs (env : Env) (args : List String) (fl : List Path)
    (o : Path) (fs : FS) (tr : Trace) (sz : Nat)
    (hex : fs.sz o = some sz) (h0 : sz ≠ 0) :
    _index env false args fl o fs tr =
      .ok (env.updateEffect o fl fs, tr ++ [.update o fl])
    ∧ runArgsOf (tr ++ [.update o fl]) = runArgsOf tr := by
  refine ⟨_index_reuse env args fl o fs tr sz hex h0, ?_⟩
  rw [runArgsOf_append, runArgsOf_update, List.append_nil]

/-- Witness for C7 over a valid 3-byte index file. -/
theorem C7_reuse_always_repairs_witness :
    _index (mkEnv []) false [] [fA] ["d", "i.dgi"] (FS.set fsAB ["d", "i.dgi"] 3) []
        = .ok ((mkEnv []).updateEffect ["d", "i.dgi"] [fA]
            (FS.set fsAB ["d", "i.dgi"] 3), [] ++ [.update ["d", "i.dgi"] [fA]])
    ∧ runArgsOf ([] ++ [.update ["d", "i.dgi"] [fA]]) = runArgsOf [] :=
  C7_reuse_always_repairs (mkEnv []) [] [fA] ["d", "i.dgi"]
    (FS.set fsAB ["d", "i.dgi"] 3) [] 3 (by rfl) (by decide)

set_option maxRecDepth 40000 in
/-- C1 (counterexample): `index([a, b], split_files=true)` on two files of one
folder does return two paths, one per file — but those paths do NOT embed the
content identity of each single file alone: they are not the paths built from
`get_videos_hash` of `[a]` and of `[b]` (the code computes `hash_str` once
from the whole pair before the split loop). -/
theorem C1_counterexample :
    ((index_paths envAB fsAB [fA, fB] false true .unset []).toOption.map
        List.length = some 2)
    ∧ ¬ (index_paths envAB fsAB [fA, fB] false true .unset [] =
          (get_videos_hash fsAB [fA]).bind (fun hA =>
            (get_videos_hash fsAB [fB]).map (fun hB =>
              [get_video_idx_path envAB ["d"] hA "a.mkv",
               get_video_idx_path envAB ["d"] hB "b.mkv"]))) := by
  decide

/-- C1 (amended): in split mode over a single-folder batch, `index` returns
one path per deduplicated-and-sorted file, and every one of those paths
embeds the content identity of the WHOLE file set (`get_videos_hash` of
`sorted_set files`), the per-file distinction coming only from the file's
stem — so each path does depend on the other files' sizes and names. -/
theorem C1_split_paths_embed_set_hash (env : Env) (fs : FS) (files : List Path)
    (force : Bool) (of : OutFolderArg) (args : List String) (d : Path)
    (hvalid : SetOrderValid env) (hstatus : AlwaysSucceeds env)
    (hne : files ≠ []) (hfold : ∀ f ∈ files, getFolder f = d) :
    index_paths env fs files force true of args =
      (get_videos_hash fs (sorted_set files)).map
        (fun h => (sorted_set files).map
          (fun f => get_video_idx_path env (get_out_folder env of files.head?) h
            (pname f))) := by
  obtain ⟨f0, t, rfl⟩ := List.exists_cons_of_ne_nil hne
  unfold index_paths
  rw [index_eq_single_of_same_folder env fs (f0 :: t) force true of args d hvalid hfold]
  cases hhash : get_videos_hash fs (sorted_set (f0 :: t)) with
  | error e =>
      rw [index_single_hash_error env fs (f0 :: t) force true of args f0 e rfl hhash]
      rfl
  | ok h =>
      rw [index_single_split env fs (f0 :: t) force of args f0 h rfl hhash]
      obtain ⟨fs', tr', hrun⟩ := split_fold_ok env force args hstatus
        ((sorted_set (f0 :: t)).zip ((sorted_set (f0 :: t)).map
          (fun file => get_video_idx_path env (get_out_folder env of (some f0)) h
            (pname file)))) fs []
      rw [hrun]
      rfl

/-- Witness for C1 (amended) at the concrete same-folder pair. -/
theorem C1_split_paths_embed_set_hash_witness :
    index_paths envAB fsAB [fA, fB] false true .unset [] =
      (get_videos_hash fsAB (sorted_set [fA, fB])).map
        (fun h => (sorted_set [fA, fB]).map
          (fun f => get_video_idx_path envAB
            (get_out_folder envAB .unset [fA, fB].head?) h (pname f))) :=
  C1_split_paths_embed_set_hash envAB fsAB [fA, fB] false .unset [] ["d"]
    (mkEnv_setOrderValid _) (mkEnv_alwaysSucceeds _) (by decide) (by decide)

set_option maxRecDepth 40000 in
/-- C2 (counterexample): on a batch spanning folders `d1` (first) and `d2`,
with a set-iteration order that is a legal permutation of the distinct
folders, `index` returns the `d2` result before the `d1` result — exactly the
concatenation of the two independent recursive calls in the d2-then-d1
set-iteration order, and NOT in the d1-then-d2 folder-encounter order the
claim requires. -/
theorem C2_counterexample :
    (index_paths env12r fs12 [fA1, fB2] false false .unset [] =
      (index_paths env12r fs12 [fB2] false false .unset []).bind (fun p2 =>
        (index_paths env12r fs12 [fA1] false false .unset []).map
          (fun p1 => p2 ++ p1)))
    ∧ ¬ (index_paths env12r fs12 [fA1, fB2] false false .unset [] =
          (index_paths env12r fs12 [fA1] false false .unset []).bind (fun p1 =>
            (index_paths env12r fs12 [fB2] false false .unset []).map
              (fun p2 => p1 ++ p2))) := by
  decide

/-- C2 (amended): a batch spanning several distinct folders is processed by
one independent recursive `index` call per distinct folder — each on
`files.filter` of that folder, so per-folder internal order is preserved, and
without the extra `cmd_args` — flattened in the set-iteration order over the
distinct folders, which is an arbitrary permutation of them (CPython set
order), not necessarily the folder-encounter order. -/
theorem C2_per_folder_recursion (env : Env) (fs : FS) (files : List Path)
    (force split_files : Bool) (of : OutFolderArg) (args : List String)
    (hvalid : SetOrderValid env)
    (hmulti : 1 < (files.map getFolder).dedup.length) :
    index env fs files force split_files of args =
      index_per_folder env fs files force split_files of := by
  have hguard : 1 < (env.setOrder (files.map getFolder)).length := by
    rw [(hvalid (files.map getFolder)).length_eq]
    exact hmulti
  unfold index index_per_folder
  rw [if_pos hguard]
  apply List.foldl_ext
  intro acc folder _
  unfold folder_step folder_step_rec
  cases acc with
  | error e => rfl
  | ok r =>
      rcases r with ⟨ps, fs', tr⟩
      have hsub : ∀ f ∈ files.filter (fun f => getFolder f == folder),
          getFolder f = folder := by
        intro f hf
        exact eq_of_beq (List.mem_filter.1 hf).2
      dsimp only
      rw [index_eq_single_of_same_folder env fs'
        (files.filter (fun f => getFolder f == folder)) force split_files of []
        folder hvalid hsub]

/-- Witness for C2 (amended) at the concrete two-folder batch with the
reversed set order. -/
theorem C2_per_folder_recursion_witness :
    index env12r fs12 [fA1, fB2] false false .unset ["x"] =
      index_per_folder env12r fs12 [fA1, fB2] false false .unset :=
  C2_per_folder_recursion env12r fs12 [fA1, fB2] false false .unset ["x"]
    (fun l => List.reverse_perm l.dedup) (by decide)

/-- C8: for a single-folder batch, the whole result of `index` — in
particular the content identity and the target index path — is unchanged by
any permutation and any duplication of the input file list (any list with the
same members), because the files are deduplicated and sorted into canonical
order before hashing. -/
theorem C8_identity_order_independent (env : Env) (fs : FS) (l₁ l₂ : List Path)
    (force split_files : Bool) (of : OutFolderArg) (args : List String) (d : Path)
    (hvalid : SetOrderValid env) (hne : l₁ ≠ [])
    (hmem : ∀ x, x ∈ l₁ ↔ x ∈ l₂)
    (hfold : ∀ f ∈ l₁, getFolder f = d) :
    index env fs l₁ force split_files of args =
      index env fs l₂ force split_files of args := by
  have hfold₂ : ∀ f ∈ l₂, getFolder f = d := fun f hf => hfold f ((hmem f).2 hf)
  have hne₂ : l₂ ≠ [] := by
    obtain ⟨a, t, rfl⟩ := List.exists_cons_of_ne_nil hne
    exact List.ne_nil_of_mem ((hmem a).1 (List.mem_cons_self a t))
  rw [index_eq_single_of_same_folder env fs l₁ force split_files of args d hvalid hfold,
    index_eq_single_of_same_folder env fs l₂ force split_files of args d hvalid hfold₂]
  obtain ⟨f₁, t₁, rfl⟩ := List.exists_cons_of_ne_nil hne
  obtain ⟨f₂, t₂, rfl⟩ := List.exists_cons_of_ne_nil hne₂
  have hcanon : sorted_set (f₁ :: t₁) = sorted_set (f₂ :: t₂) :=
    sorted_set_eq_of_mem_iff _ _ hmem
  have hdest : get_out_folder env of (some f₁) = get_out_folder env of (some f₂) := by
    cases of with
    | unset =>
        show getFolder f₁ = getFolder f₂
        rw [hfold f₁ (List.mem_cons_self f₁ t₁), hfold₂ f₂ (List.mem_cons_self f₂ t₂)]
    | disabled => rfl
    | given p => rfl
  unfold index_single
  dsimp only [List.head?]
  rw [hcanon, hdest]

theorem head_some_of_ne_nil {l : List Path} (h : l ≠ []) :
    ∃ f0, l.head? = some f0 := by
  cases l with
  | nil => exact absurd rfl h
  | cons a t => exact ⟨a, rfl⟩

/-- C5: calling `index(files)` twice on a single-folder set with `force` off,
default joined mode and default output folder, with an environment whose
external tools behave as indexers do (success leaves a non-empty index at the
output, repair keeps it non-empty, neither touches the sources), returns the
same path list both times and launches the external indexer at most once
across both calls — the second call takes the REUSE branch and launches
nothing. -/
theorem C5_index_idempotent (env : Env) (fs : FS) (files : List Path)
    (args : List String) (d : Path)
    (hvalid : SetOrderValid env) (hstatus : AlwaysSucceeds env)
    (hpres : PreservesSources env files) (hcreate : CreatesOutput env files)
    (hkeep : KeepsNonEmpty env)
    (hne : files ≠ []) (hfold : ∀ f ∈ files, getFolder f = d)
    (hsep : ∀ f ∈ files, index_folder_name ∉ f)
    (hstat : ∀ f ∈ files, fs.sz f ≠ none) :
    ∃ ps fs₁ tr₁ fs₂ tr₂,
      index env fs files false false .unset args = .ok (ps, fs₁, tr₁) ∧
      index env fs₁ files false false .unset args = .ok (ps, fs₂, tr₂) ∧
      countRuns tr₂ = 0 ∧ countRuns tr₁ + countRuns tr₂ ≤ 1 := by
  obtain ⟨f0, t, rfl⟩ := List.exists_cons_of_ne_nil hne
  have hcanon_sub : ∀ x ∈ sorted_set (f0 :: t), x ∈ (f0 :: t) :=
    fun x hx => mem_sorted_set.1 hx
  obtain ⟨h, hhash1⟩ :=
    get_videos_hash_ok fs (sorted_set (f0 :: t))
      (fun f hf => hstat f (hcanon_sub f hf))
  have hout_not_src : ∀ f ∈ (f0 :: t),
      f ≠ joined_out env .unset f0 h (f0 :: t) :=
    fun f hf => ne_joined_out_of_no_vssource (hsep f hf) env .unset f0 h (f0 :: t)
  have hout_notin : joined_out env .unset f0 h (f0 :: t) ∉ (f0 :: t) :=
    fun hmem => hout_not_src _ hmem rfl
  -- effect of the first call's `_index` on the unit
  have key : ∃ fs₁ tr₁,
      _index env false args (sorted_set (f0 :: t))
          (joined_out env .unset f0 h (f0 :: t)) fs [] = .ok (fs₁, tr₁)
      ∧ (∃ m, fs₁.sz (joined_out env .unset f0 h (f0 :: t)) = some m ∧ m ≠ 0)
      ∧ (∀ f ∈ (f0 :: t), fs₁.sz f = fs.sz f)
      ∧ countRuns tr₁ ≤ 1 := by
    cases hsz : fs.sz (joined_out env .unset f0 h (f0 :: t)) with
    | none =>
        rw [_index_absent env false args _ _ fs [] hsz,
          run_index_ok env _ _ args fs [] (hstatus _ _ _ _)]
        refine ⟨_, _, rfl, ?_, ?_, ?_⟩
        · exact hcreate _ _ args fs hout_notin (hstatus _ _ _ _)
        · exact fun f hf => hpres.1 _ _ args fs f hf
        · exact Nat.le_refl 1
    | some sz =>
        by_cases hz : sz = 0
        · subst hz
          rw [_index_rebuild env false args _ _ fs [] 0 hsz (Or.inl rfl),
            run_index_ok env _ _ args (fs.erase _) [] (hstatus _ _ _ _)]
          refine ⟨_, _, rfl, ?_, ?_, ?_⟩
          · exact hcreate _ _ args (fs.erase _) hout_notin (hstatus _ _ _ _)
          · intro f hf
            rw [hpres.1 _ _ args (fs.erase _) f hf, fs_erase_sz,
              if_neg (hout_not_src f hf)]
          · exact Nat.le_refl 1
        · rw [_index_reuse env args _ _ fs [] sz hsz hz]
          refine ⟨_, _, rfl, ?_, ?_, ?_⟩
          · exact hkeep _ _ fs sz hsz hz
          · exact fun f hf => hpres.2 _ _ fs f hf
          · exact Nat.zero_le 1
  obtain ⟨fs₁, tr₁, hidx1, ⟨m, hm, hm0⟩, hsrc1, hcr1⟩ := key
  have hcall1 : index env fs (f0 :: t) false false .unset args =
      .ok ([joined_out env .unset f0 h (f0 :: t)], fs₁, tr₁) := by
    rw [index_eq_single_of_same_folder env fs (f0 :: t) false false .unset args
        d hvalid hfold,
      index_single_joined env fs (f0 :: t) false .unset args f0 h rfl hhash1,
      hidx1]
  have hhash2 : get_videos_hash fs₁ (sorted_set (f0 :: t)) = .ok h := by
    rw [get_videos_hash_congr fs fs₁ _ (fun f hf => hsrc1 f (hcanon_sub f hf))]
    exact hhash1
  have hcall2 : index env fs₁ (f0 :: t) false false .unset args =
      .ok ([joined_out env .unset f0 h (f0 :: t)],
        env.updateEffect (joined_out env .unset f0 h (f0 :: t))
          (sorted_set (f0 :: t)) fs₁,
        [.update (joined_out env .unset f0 h (f0 :: t)) (sorted_set (f0 :: t))]) := by
    rw [index_eq_single_of_same_folder env fs₁ (f0 :: t) false false .unset args
        d hvalid hfold,
      index_single_joined env fs₁ (f0 :: t) false .unset args f0 h rfl hhash2,
      _index_reuse env args _ _ fs₁ [] m hm hm0]
    rfl
  refine ⟨_, fs₁, tr₁, _, _, hcall1, hcall2, rfl, ?_⟩
  have hz2 : countRuns [Event.update (joined_out env .unset f0 h (f0 :: t))
      (sorted_set (f0 :: t))] = 0 := rfl
  omega

/-- Witness for C5 at the concrete one-file batch: the path list is the same
both times and the external indexer ran at most once over both calls. -/
theorem C5_index_idempotent_witness :
    ∃ ps fs₁ tr₁ fs₂ tr₂,
      index (mkEnv [fA]) fsAB [fA] false false .unset [] = .ok (ps, fs₁, tr₁) ∧
      index (mkEnv [fA]) fs₁ [fA] false false .unset [] = .ok (ps, fs₂, tr₂) ∧
      countRuns tr₂ = 0 ∧ countRuns tr₁ + countRuns tr₂ ≤ 1 :=
  C5_index_idempotent (mkEnv [fA]) fsAB [fA] [] ["d"]
    (mkEnv_setOrderValid _) (mkEnv_alwaysSucceeds _) (mkEnv_preservesSources _)
    (mkEnv_createsOutput _) (mkEnv_keepsNonEmpty _) (by decide) (by decide)
    (by decide) (by decide)

/-- A single-folder joined `index_single` with `force = true` and default
output folder always launches exactly one external-indexer run carrying
exactly the extra `cmd_args` it was given, and leaves the sizes of the files
in `S` unchanged (for `S` whose members the indexer never touches and that
contain no `.vssource` component). -/
theorem index_single_force_joined_ok (env : Env) (fs₀ : FS) (files' : List Path)
    (args : List String) (S : List Path)
    (hstatus : AlwaysSucceeds env)
    (hpresS : ∀ fl o a s f, f ∈ S → (env.runEffect fl o a s).sz f = s.sz f)
    (hsepS : ∀ f ∈ S, index_folder_name ∉ f)
    (f0 : Path) (hhead : files'.head? = some f0)
    (hstat : ∀ f ∈ files', fs₀.sz f ≠ none) :
    ∃ h fs',
      index_single env fs₀ files' true false .unset args =
        .ok ([joined_out env .unset f0 h files'], fs',
          [.run (sorted_set files') (joined_out env .unset f0 h files') args])
      ∧ (∀ f ∈ S, fs'.sz f = fs₀.sz f) := by
  obtain ⟨h, hhash⟩ := get_videos_hash_ok fs₀ (sorted_set files')
    (fun f hf => hstat f (mem_sorted_set.1 hf))
  refine ⟨h, ?_⟩
  rw [index_single_joined env fs₀ files' true .unset args f0 h hhead hhash]
  cases hsz : fs₀.sz (joined_out env .unset f0 h files') with
  | none =>
      rw [_index_absent env true args _ _ fs₀ [] hsz,
        run_index_ok env _ _ args fs₀ [] (hstatus _ _ _ _)]
      exact ⟨_, rfl, fun f hf => hpresS _ _ args fs₀ f hf⟩
  | some sz =>
      rw [_index_rebuild env true args _ _ fs₀ [] sz hsz (Or.inr rfl),
        run_index_ok env _ _ args (fs₀.erase _) [] (hstatus _ _ _ _)]
      refine ⟨_, rfl, fun f hf => ?_⟩
      rw [hpresS _ _ args (fs₀.erase _) f hf, fs_erase_sz,
        if_neg (ne_joined_out_of_no_vssource (hsepS f hf) env .unset f0 h files')]

/-- The multi-folder fold with `force = true`, joined mode and default output
folder succeeds, launching exactly one external-indexer run per folder, each
with empty extra `cmd_args`, and preserving the sizes of the batch's source
files. -/
theorem multi_fold_ok (env : Env) (files : List Path)
    (hstatus : AlwaysSucceeds env)
    (hpres1 : ∀ fl o a s f, f ∈ files → (env.runEffect fl o a s).sz f = s.sz f)
    (hsep : ∀ f ∈ files, index_folder_name ∉ f) :
    ∀ L : List Path, (∀ folder ∈ L, ∃ f ∈ files, getFolder f = folder) →
    ∀ (ps₀ : List Path) (fs₀ : FS) (tr₀ : Trace),
      (∀ f ∈ files, fs₀.sz f ≠ none) →
      ∃ ps fs' tr,
        L.foldl (folder_step env files true false .unset) (.ok (ps₀, fs₀, tr₀))
          = .ok (ps₀ ++ ps, fs', tr₀ ++ tr)
        ∧ runArgsOf tr = List.replicate L.length []
        ∧ (∀ f ∈ files, fs'.sz f = fs₀.sz f) := by
  intro L
  induction L with
  | nil =>
      intro _ ps₀ fs₀ tr₀ _
      exact ⟨[], fs₀, [], by simp, rfl, fun f _ => rfl⟩
  | cons folder Lt ih =>
      intro hL ps₀ fs₀ tr₀ hstat
      obtain ⟨fw, hfw, hfwf⟩ := hL folder (List.mem_cons_self _ _)
      have hmemf : fw ∈ files.filter (fun f => getFolder f == folder) :=
        List.mem_filter.2 ⟨hfw, by simp [hfwf]⟩
      obtain ⟨f0, hf0⟩ := head_some_of_ne_nil (List.ne_nil_of_mem hmemf)
      have hstat' : ∀ f ∈ files.filter (fun f => getFolder f == folder),
          fs₀.sz f ≠ none :=
        fun f hf => hstat f (List.mem_filter.1 hf).1
      obtain ⟨h, fs₁, hsingle, hkeepS⟩ :=
        index_single_force_joined_ok env fs₀
          (files.filter (fun f => getFolder f == folder)) [] files hstatus
          hpres1 hsep f0 hf0 hstat'
      rw [List.foldl_cons]
      have hstep : folder_step env files true false .unset
          (.ok (ps₀, fs₀, tr₀)) folder
          = .ok (ps₀ ++ [joined_out env .unset f0 h
              (files.filter (fun f => getFolder f == folder))], fs₁,
            tr₀ ++ [.run (sorted_set (files.filter (fun f => getFolder f == folder)))
              (joined_out env .unset f0 h
                (files.filter (fun f => getFolder f == folder))) []]) := by
        unfold folder_step
        dsimp only
        rw [hsingle]
      rw [hstep]
      have hstat₁ : ∀ f ∈ files, fs₁.sz f ≠ none := fun f hf => by
        rw [hkeepS f hf]
        exact hstat f hf
      obtain ⟨ps, fs', tr, hrest, hargs, hkeep'⟩ :=
        ih (fun fo hfo => hL fo (List.mem_cons_of_mem _ hfo)) _ fs₁ _ hstat₁
      refine ⟨[joined_out env .unset f0 h
          (files.filter (fun f => getFolder f == folder))] ++ ps, fs',
        [.run (sorted_set (files.filter (fun f => getFolder f == folder)))
          (joined_out env .unset f0 h
            (files.filter (fun f => getFolder f == folder))) []] ++ tr,
        ?_, ?_, ?_⟩
      · rw [hrest]
        simp [List.append_assoc]
      · rw [runArgsOf_append, hargs]
        rfl
      · intro f hf
        rw [hkeep' f hf, hkeepS f hf]

/-- C10: the extra `*cmd_args` of `index` are not forwarded to the per-folder
recursive calls: on a multi-folder batch every external-indexer launch
carries empty extra arguments, whereas a single-folder call passes its
`cmd_args` through to the launch (shown with `force = true`, joined mode,
default output folder, so that each logical unit launches exactly once). -/
theorem C10_cmd_args_dropped_multi_folder (env : Env) (fs fsB : FS)
    (files filesB : List Path) (args : List String) (d : Path)
    (hvalid : SetOrderValid env) (hstatus : AlwaysSucceeds env)
    (hpres1 : ∀ fl o a s f, f ∈ files → (env.runEffect fl o a s).sz f = s.sz f)
    (hsep : ∀ f ∈ files, index_folder_name ∉ f)
    (hstat : ∀ f ∈ files, fs.sz f ≠ none)
    (hmulti : 1 < (files.map getFolder).dedup.length)
    (hneB : filesB ≠ []) (hfoldB : ∀ f ∈ filesB, getFolder f = d)
    (hstatB : ∀ f ∈ filesB, fsB.sz f ≠ none) :
    (∃ ps fs' tr, index env fs files true false .unset args = .ok (ps, fs', tr)
      ∧ runArgsOf tr ≠ [] ∧ ∀ a ∈ runArgsOf tr, a = [])
    ∧ (∃ ps fs' tr, index env fsB filesB true false .unset args = .ok (ps, fs', tr)
      ∧ runArgsOf tr = [args]) := by
  constructor
  · have hguard : 1 < (env.setOrder (files.map getFolder)).length := by
      rw [(hvalid (files.map getFolder)).length_eq]
      exact hmulti
    have hLmem : ∀ folder ∈ env.setOrder (files.map getFolder),
        ∃ f ∈ files, getFolder f = folder := by
      intro folder hfo
      have hd : folder ∈ (files.map getFolder).dedup :=
        ((hvalid (files.map getFolder)).mem_iff).1 hfo
      rcases List.mem_map.1 (List.mem_dedup.1 hd) with ⟨f, hf, rfl⟩
      exact ⟨f, hf, rfl⟩
    obtain ⟨ps, fs', tr, hrun, hargs, _⟩ :=
      multi_fold_ok env files hstatus hpres1 hsep
        (env.setOrder (files.map getFolder)) hLmem [] fs [] hstat
    refine ⟨ps, fs', tr, ?_, ?_, ?_⟩
    · unfold index
      rw [if_pos hguard, hrun]
      rfl
    · rw [hargs]
      intro hnil
      have := congrArg List.length hnil
      simp only [List.length_replicate, List.length_nil] at this
      omega
    · rw [hargs]
      exact fun a ha => List.eq_of_mem_replicate ha
  · obtain ⟨f0, hf0⟩ := head_some_of_ne_nil hneB
    obtain ⟨h, fs', hsingle, _⟩ :=
      index_single_force_joined_ok env fsB filesB args [] hstatus
        (fun fl o a s f hf => absurd hf (List.not_mem_nil f))
        (fun f hf => absurd hf (List.not_mem_nil f)) f0 hf0 hstatB
    rw [index_eq_single_of_same_folder env fsB filesB true false .unset args
      d hvalid hfoldB, hsingle]
    exact ⟨_, _, _, rfl, rfl⟩

/-- Witness for C10: the two-folder batch drops `["x"]` from both launches;
the single-folder batch passes `["x"]` through. -/
theorem C10_cmd_args_dropped_multi_folder_witness :
    (∃ ps fs' tr, index env12 fs12 [fA1, fB2] true false .unset ["x"]
        = .ok (ps, fs', tr)
      ∧ runArgsOf tr ≠ [] ∧ ∀ a ∈ runArgsOf tr, a = [])
    ∧ (∃ ps fs' tr, index env12 fsAB [fA] true false .unset ["x"]
        = .ok (ps, fs', tr)
      ∧ runArgsOf tr = [["x"]]) :=
  C10_cmd_args_dropped_multi_folder env12 fs12 fsAB [fA1, fB2] [fA] ["x"] ["d"]
    (mkEnv_setOrderValid _) (mkEnv_alwaysSucceeds _)
    ((mkEnv_preservesSources _).1) (by decide) (by decide) (by decide)
    (by decide) (by decide) (by decide)

/-- Witness for C8: a permuted, duplicated listing of the same two files. -/
theorem C8_identity_order_independent_witness :
    index envAB fsAB [fB, fA, fB] false false .unset [] =
      index envAB fsAB [fA, fB] false false .unset [] :=
  C8_identity_order_independent envAB fsAB [fB, fA, fB] [fA, fB] false false
    .unset [] ["d"] (mkEnv_setOrderValid _) (by decide)
    (fun x => by
      simp only [List.mem_cons, List.not_mem_nil, or_false]
      exact ⟨fun h => h.elim Or.inr (fun h2 => h2.elim Or.inl Or.inr),
        fun h => h.elim (fun h1 => Or.inr (Or.inl h1)) Or.inl⟩)
    (by decide)

end VSSource
